import Mathlib

/-!
Verification of the dg-satellite fleet-gateway core against its design
specification.  The Go code is shallowly embedded: file names are modelled
as character lists (Go strings are byte slices), directories as lists of
(name, mtime) entries, the relational catalog as lists of rows, and the
cryptographic primitives (HKDF, HMAC-SHA256) as abstract function
parameters.  Every definition mirrors one function of the source tree.
-/

namespace DgSat

/-- A directory entry as seen by `os.ReadDir`: the file name and its
modification time in Unix milliseconds (storage/file.go `matchFiles`). -/
structure FEntry where
  name : List Char
  mtime : Int
deriving Repr, DecidableEq

/-- A directory is the list of its entries, in directory order. -/
abbrev Dir := List FEntry

/-- Constant `partialFileSuffix = "..part"` of storage/file.go. -/
def partFileSuffix : List Char := "..part".data

/-- Constant `EventsPrefix = "events"` of storage/file.go. -/
def eventsPre : List Char := "events".data

/-- Constant `StatesPrefix = "apps-states"` of storage/file.go. -/
def statesPre : List Char := "apps-states".data

/-- The per-entry filter of `baseFsHandle.matchFiles`: partial files
(`..part` suffix) are skipped; otherwise the name must begin with the
requested prefix (an empty requested prefix matches everything). -/
def matchKeep (pre : List Char) (name : List Char) : Bool :=
  !(partFileSuffix.isSuffixOf name) && (pre.isEmpty || pre.isPrefixOf name)

/-- The comparator handed to `slices.SortFunc` in `matchFiles`: ascending
modification time. -/
def mtimeRel (a b : FEntry) : Prop := a.mtime ≤ b.mtime

instance : DecidableRel mtimeRel :=
  fun a b => inferInstanceAs (Decidable (a.mtime ≤ b.mtime))

instance : IsTotal FEntry mtimeRel := ⟨fun a b => le_total a.mtime b.mtime⟩

instance : IsTrans FEntry mtimeRel := ⟨fun _ _ _ h1 h2 => le_trans h1 h2⟩

/-- Embedding of `baseFsHandle.matchFiles` (storage/file.go): list the directory, drop
partial files, keep names with the prefix, optionally sort by modification
time ascending, and return the names. -/
def matchFiles (dir : Dir) (pre : List Char) (sortByModTime : Bool) : List (List Char) :=
  let infos := dir.filter (fun e => matchKeep pre e.name)
  let infos := if sortByModTime then infos.insertionSort mtimeRel else infos
  infos.map (·.name)

/-- Embedding of `baseFsHandle.rolloverFiles` (storage/file.go): list matching files
sorted by modification time and remove the first `len - max` of them. -/
def rolloverFiles (dir : Dir) (pre : List Char) (max : Nat) : Dir :=
  let names := matchFiles dir pre true
  let toDelete := names.take (names.length - max)
  dir.filter (fun e => !(toDelete.contains e.name))

theorem mem_matchFiles {dir : Dir} {pre : List Char} {b : Bool} {n : List Char}
    (h : n ∈ matchFiles dir pre b) :
    ∃ e ∈ dir, e.name = n ∧ matchKeep pre n = true := by
  unfold matchFiles at h
  rcases List.mem_map.mp h with ⟨e, he, rfl⟩
  have he' : e ∈ dir.filter (fun e => matchKeep pre e.name) := by
    cases b with
    | false => simpa using he
    | true => exact (List.perm_insertionSort mtimeRel _).mem_iff.mp (by simpa using he)
  have := List.mem_filter.mp he'
  exact ⟨e, this.1, rfl, this.2⟩

/-- C7: no file listing ever returns a name carrying the partial suffix:
every name returned by `matchFiles` (hence by `ListFiles`, by
`rolloverFiles`'s deletion candidates and by the rollout listings built on
it) fails the `..part` suffix test. -/
theorem matchFiles_no_partial (dir : Dir) (pre : List Char) (b : Bool)
    (n : List Char) (h : n ∈ matchFiles dir pre b) :
    partFileSuffix.isSuffixOf n = false := by
  rcases mem_matchFiles h with ⟨e, _, rfl, hk⟩
  unfold matchKeep at hk
  rcases Bool.and_eq_true_iff.mp hk with ⟨h1, _⟩
  simpa using h1

/-- Witness for C7 at a concrete directory: a directory holding a real file
and an in-progress partial file lists only the real one. -/
theorem matchFiles_no_partial_witness :
    matchFiles [⟨"events-a".data, 5⟩, ⟨"events-b..part".data, 9⟩] "events".data true
      = ["events-a".data]
    ∧ partFileSuffix.isSuffixOf "events-a".data = false := by
  constructor
  · decide
  · exact matchFiles_no_partial
      [⟨"events-a".data, 5⟩, ⟨"events-b..part".data, 9⟩] "events".data true
      "events-a".data (by decide)

/-! ## Device event bucketing and rollover (storage/gateway/storage.go) -/

/-- Effect of a file write or durable append (`writeFile`/`appendFile`) on
the directory listing: the file's modification time becomes the write time;
a missing file is created (`O_CREATE`). -/
def touchFile (dir : Dir) (n : List Char) (t : Int) : Dir :=
  if dir.any (fun e => e.name == n) then
    dir.map (fun e => if e.name == n then ⟨e.name, t⟩ else e)
  else dir ++ [⟨n, t⟩]

/-- The retention limits of `gateway.NewStorage`: `maxEvents: 20`,
`maxStates: 10`. -/
structure GwStorageCfg where
  maxEvents : Nat
  maxStates : Nat

/-- Constructor `gateway.NewStorage` fixes the caps at 20 events files and 10
apps-states files. -/
def newGwStorage : GwStorageCfg := ⟨20, 10⟩

/-- Name `fmt.Sprintf("%s-%s", storage.EventsPrefix, corrId)` of
`Device.ProcessEvents`. -/
def eventFileName (cid : List Char) : List Char := eventsPre ++ '-' :: cid

/-- Name `fmt.Sprintf("%s-%d", storage.StatesPrefix, time.Now().UnixMilli())` of
`Device.SaveAppsStates`. -/
def statesFileName (ms : Int) : List Char := statesPre ++ '-' :: (toString ms).data

/-- The append loop of `Device.ProcessEvents`: each event is appended to
`events-<correlationId>`; successive writes carry increasing times (the
4 ms sleep on correlation-id changes only strengthens the spacing). -/
def appendEventFiles (dir : Dir) (cids : List (List Char)) (t : Int) : Dir :=
  match cids with
  | [] => dir
  | c :: rest => appendEventFiles (touchFile dir (eventFileName c) t) rest (t + 1)

/-- Embedding of `Device.ProcessEvents`: append every event to its correlation bucket,
then roll the `events-*` bucket over to at most `maxEvents` files. -/
def processEvents (cfg : GwStorageCfg) (dir : Dir) (cids : List (List Char)) (t : Int) : Dir :=
  rolloverFiles (appendEventFiles dir cids t) eventsPre cfg.maxEvents

/-- Embedding of `Device.SaveAppsStates`: write the timestamped snapshot, then roll the
`apps-states-*` bucket over to at most `maxStates` files. -/
def saveAppsStates (cfg : GwStorageCfg) (dir : Dir) (ms : Int) : Dir :=
  rolloverFiles (touchFile dir (statesFileName ms) ms) statesPre cfg.maxStates

/-- Number of directory entries whose name passes the `matchFiles` filter
for the given prefix. -/
def countMatch (dir : Dir) (pre : List Char) : Nat :=
  dir.countP (fun e => matchKeep pre e.name)

/-- One storage call of the device pipeline, as dispatched by the gateway
handlers: an events upload (with the batch's correlation ids) or an
apps-states snapshot. -/
inductive GwOp where
  | events (cids : List (List Char)) (t : Int)
  | states (ms : Int)

/-- Run a sequence of device-pipeline calls against a device directory,
with the caps fixed by `gateway.NewStorage`. -/
def gwRun (dir : Dir) : List GwOp → Dir
  | [] => dir
  | GwOp.events cids t :: rest => gwRun (processEvents newGwStorage dir cids t) rest
  | GwOp.states ms :: rest => gwRun (saveAppsStates newGwStorage dir ms) rest

theorem countMatch_rolloverFiles_le (dir : Dir) (pre : List Char) (max : Nat) :
    countMatch (rolloverFiles dir pre max) pre ≤ max := by
  unfold countMatch rolloverFiles
  set keep : FEntry → Bool := fun e => matchKeep pre e.name with hkeep
  set A := dir.filter keep with hA
  set S := A.insertionSort mtimeRel with hS
  set names := matchFiles dir pre true with hnames
  have hnamesS : names = S.map (·.name) := rfl
  set del := names.take (names.length - max) with hdel
  set q : FEntry → Bool := fun e => !(del.contains e.name) with hq
  have step1 :
      (dir.filter q).countP keep = (S.filter q).length := by
    have e1 : (dir.filter q).countP keep = (A.filter q).length := by
      rw [List.countP_eq_length_filter, List.filter_filter, hA, List.filter_filter]
      congr 1
      apply List.filter_congr
      intro e _
      exact Bool.and_comm _ _
    have e2 : (A.filter q).Perm (S.filter q) :=
      (List.perm_insertionSort mtimeRel A).symm.filter q
    rw [e1, e2.length_eq]
  rw [step1]
  have hsplit : S = S.take (names.length - max) ++ S.drop (names.length - max) :=
    (List.take_append_drop _ S).symm
  have hlenS : S.length = names.length := by
    rw [hnamesS, List.length_map]
  have htake : (S.take (names.length - max)).filter q = [] := by
    apply List.filter_eq_nil_iff.mpr
    intro e he
    have hmem : e.name ∈ del := by
      rw [hdel, hnamesS, ← List.map_take]
      exact List.mem_map_of_mem _ he
    simp only [hq, Bool.not_eq_true', Bool.not_eq_false]
    exact List.elem_iff.mpr hmem
  calc (S.filter q).length
      = ((S.take (names.length - max)).filter q).length
        + ((S.drop (names.length - max)).filter q).length := by
        conv_lhs => rw [hsplit]
        rw [List.filter_append, List.length_append]
    _ ≤ 0 + (S.drop (names.length - max)).length := by
        rw [htake]
        exact Nat.add_le_add_left (List.length_filter_le _ _) 0
    _ ≤ max := by
        rw [Nat.zero_add, List.length_drop, hlenS]
        omega

theorem countMatch_rolloverFiles_mono (dir : Dir) (pre pre' : List Char) (max : Nat) :
    countMatch (rolloverFiles dir pre' max) pre ≤ countMatch dir pre := by
  unfold countMatch rolloverFiles
  exact List.Sublist.countP_le _ (List.filter_sublist dir)

theorem countMatch_touchFile (dir : Dir) (n : List Char) (t : Int) (pre : List Char)
    (h : matchKeep pre n = false) :
    countMatch (touchFile dir n t) pre = countMatch dir pre := by
  unfold countMatch touchFile
  split
  · rw [List.countP_map]
    apply List.countP_congr
    intro e _
    simp only [Function.comp_apply]
    split
    · next heq =>
      have : e.name = n := by simpa using heq
      simp [this]
    · rfl
  · rw [List.countP_append]
    simp [h]

theorem matchKeep_states_eventFile (cid : List Char) :
    matchKeep statesPre (eventFileName cid) = false := by
  unfold matchKeep
  have h2 : (statesPre.isEmpty || statesPre.isPrefixOf (eventFileName cid)) = false := rfl
  rw [h2, Bool.and_false]

theorem matchKeep_events_statesFile (ms : Int) :
    matchKeep eventsPre (statesFileName ms) = false := by
  unfold matchKeep
  have h2 : (eventsPre.isEmpty || eventsPre.isPrefixOf (statesFileName ms)) = false := rfl
  rw [h2, Bool.and_false]

theorem countMatch_appendEventFiles_states (dir : Dir) (cids : List (List Char)) (t : Int) :
    countMatch (appendEventFiles dir cids t) statesPre = countMatch dir statesPre := by
  induction cids generalizing dir t with
  | nil => rfl
  | cons c rest ih =>
    rw [appendEventFiles, ih, countMatch_touchFile]
    exact matchKeep_states_eventFile c

/-- Strict modification-time order, used to pin down the sorted listing
when all matched modification times are distinct. -/
def mtimeLt (a b : FEntry) : Prop := a.mtime < b.mtime

instance : IsAntisymm FEntry mtimeLt :=
  ⟨fun _ _ h1 h2 => absurd h1 (not_lt_of_lt h2)⟩

theorem rolloverFiles_drops_oldest (dir : Dir) (pre : List Char) (max : Nat)
    (hnodup : (dir.map (·.name)).Nodup)
    (hdistinct :
      (dir.filter (fun e => matchKeep pre e.name)).Pairwise (fun a b => a.mtime ≠ b.mtime)) :
    matchFiles (rolloverFiles dir pre max) pre true
      = (matchFiles dir pre true).drop ((matchFiles dir pre true).length - max) := by
  set keep : FEntry → Bool := fun e => matchKeep pre e.name with hkeep
  set A := dir.filter keep with hA
  set S := A.insertionSort mtimeRel with hS
  have hSA : S.Perm A := List.perm_insertionSort mtimeRel A
  set names := matchFiles dir pre true with hnames
  have hnamesS : names = S.map (·.name) := rfl
  set k := names.length - max with hk
  set del := names.take k with hdel
  set q : FEntry → Bool := fun e => !(del.contains e.name) with hq
  have hres : rolloverFiles dir pre max = dir.filter q := rfl
  -- the surviving matched entries are, up to permutation, `S.filter q`
  have hB : (dir.filter q).filter keep = A.filter q := by
    rw [List.filter_filter, hA, List.filter_filter]
    apply List.filter_congr
    intro e _
    exact Bool.and_comm _ _
  -- names of `S` are distinct
  have hSnames : (S.map (·.name)).Nodup := by
    have h1 : (A.map (·.name)).Sublist (dir.map (·.name)) :=
      List.Sublist.map _ (List.filter_sublist dir)
    have h2 : (A.map (·.name)).Nodup := h1.nodup hnodup
    exact ((hSA.map (·.name)).nodup_iff).mpr h2
  -- `S.filter q` keeps exactly the entries beyond the first `k`
  have htake : (S.take k).filter q = [] := by
    apply List.filter_eq_nil_iff.mpr
    intro e he
    have hmem : e.name ∈ del := by
      rw [hdel, hnamesS, ← List.map_take]
      exact List.mem_map_of_mem _ he
    simp only [hq, Bool.not_eq_true', Bool.not_eq_false]
    exact List.elem_iff.mpr hmem
  have hdrop : (S.drop k).filter q = S.drop k := by
    apply List.filter_eq_self.mpr
    intro e he
    simp only [hq, Bool.not_eq_true']
    apply Bool.eq_false_iff.mpr
    intro hcontained
    have hmemdel : e.name ∈ del := List.elem_iff.mp hcontained
    have hmemtake : e.name ∈ (S.take k).map (·.name) := by
      rw [hdel, hnamesS, ← List.map_take] at hmemdel
      exact hmemdel
    have hmemdrop : e.name ∈ (S.drop k).map (·.name) := List.mem_map_of_mem _ he
    have hsplit : (S.map (·.name)) = (S.take k).map (·.name) ++ (S.drop k).map (·.name) := by
      rw [← List.map_append, List.take_append_drop]
    exact (List.nodup_append.mp (hsplit ▸ hSnames)).2.2 hmemtake hmemdrop
  have hfilterS : S.filter q = S.drop k := by
    conv_lhs => rw [← List.take_append_drop k S]
    rw [List.filter_append, htake, hdrop, List.nil_append]
  -- both sides are strictly sorted and permutations of each other
  set SB := ((dir.filter q).filter keep).insertionSort mtimeRel with hSB
  have hSBperm : SB.Perm (S.drop k) := by
    have p1 : SB.Perm (A.filter q) := by
      rw [hSB, hB]
      exact List.perm_insertionSort mtimeRel _
    have p2 : (S.filter q).Perm (A.filter q) := hSA.filter q
    have := p1.trans p2.symm
    rwa [hfilterS] at this
  have hnesymm : ∀ {x y : FEntry}, x.mtime ≠ y.mtime → y.mtime ≠ x.mtime :=
    fun h => Ne.symm h
  have hSsorted : S.Pairwise mtimeRel := List.sorted_insertionSort mtimeRel A
  have hSne : S.Pairwise (fun a b => a.mtime ≠ b.mtime) :=
    (hSA.pairwise_iff hnesymm).mpr hdistinct
  have hSlt : S.Pairwise mtimeLt :=
    (hSsorted.and hSne).imp (fun h => lt_of_le_of_ne h.1 h.2)
  have hdropLt : (S.drop k).Pairwise mtimeLt :=
    List.Pairwise.sublist (List.drop_sublist k S) hSlt
  have hSBsorted : SB.Pairwise mtimeRel := List.sorted_insertionSort mtimeRel _
  have hSBne : SB.Pairwise (fun a b => a.mtime ≠ b.mtime) :=
    (hSBperm.pairwise_iff hnesymm).mpr (hdropLt.imp (fun h => ne_of_lt h))
  have hSBlt : SB.Pairwise mtimeLt :=
    (hSBsorted.and hSBne).imp (fun h => lt_of_le_of_ne h.1 h.2)
  have hfinal : SB = S.drop k := List.eq_of_perm_of_sorted hSBperm hSBlt hdropLt
  show ((((dir.filter q).filter keep).insertionSort mtimeRel).map (·.name))
      = names.drop k
  rw [← hSB, hfinal, List.map_drop, ← hnamesS]

/-- C6 (invariant part): starting from a fresh device directory, after any
sequence of `ProcessEvents` and `SaveAppsStates` calls the directory holds
at most 20 `events-*` files and at most 10 `apps-states-*` files. -/
theorem gwRun_bounded_of (dir : Dir) (ops : List GwOp)
    (he : countMatch dir eventsPre ≤ 20) (hs : countMatch dir statesPre ≤ 10) :
    countMatch (gwRun dir ops) eventsPre ≤ 20
      ∧ countMatch (gwRun dir ops) statesPre ≤ 10 := by
  induction ops generalizing dir with
  | nil => exact ⟨he, hs⟩
  | cons op rest ih =>
    cases op with
    | events cids t =>
      apply ih
      · exact countMatch_rolloverFiles_le _ _ _
      · calc countMatch (processEvents newGwStorage dir cids t) statesPre
            ≤ countMatch (appendEventFiles dir cids t) statesPre :=
              countMatch_rolloverFiles_mono _ _ _ _
          _ = countMatch dir statesPre := countMatch_appendEventFiles_states _ _ _
          _ ≤ 10 := hs
    | states ms =>
      apply ih
      · calc countMatch (saveAppsStates newGwStorage dir ms) eventsPre
            ≤ countMatch (touchFile dir (statesFileName ms) ms) eventsPre :=
              countMatch_rolloverFiles_mono _ _ _ _
          _ = countMatch dir eventsPre :=
              countMatch_touchFile _ _ _ _ (matchKeep_events_statesFile ms)
          _ ≤ 20 := he
      · exact countMatch_rolloverFiles_le _ _ _

/-- C6: after any sequence of `ProcessEvents` and `SaveAppsStates` calls
(each of which ends by rolling over its bucket) a device directory contains
at most 20 `events-*` files and at most 10 `apps-states-*` files; and the
rollover deletes exactly the oldest-by-modification-time files beyond the
cap (the sorted listing that survives is the suffix past the first
`len - max` entries, when names and matched modification times are
distinct). -/
theorem eventsAndStates_rollover_bound :
    (∀ ops : List GwOp,
      countMatch (gwRun [] ops) eventsPre ≤ 20
        ∧ countMatch (gwRun [] ops) statesPre ≤ 10)
    ∧ (∀ (dir : Dir) (pre : List Char) (max : Nat),
        (dir.map (·.name)).Nodup →
        (dir.filter (fun e => matchKeep pre e.name)).Pairwise
          (fun a b => a.mtime ≠ b.mtime) →
        matchFiles (rolloverFiles dir pre max) pre true
          = (matchFiles dir pre true).drop ((matchFiles dir pre true).length - max)) :=
  ⟨fun ops => gwRun_bounded_of [] ops (by decide) (by decide),
   fun dir pre max h1 h2 => rolloverFiles_drops_oldest dir pre max h1 h2⟩

/-- Witness for C6 at concrete inputs: one events upload stays within both
caps, and rolling a three-file bucket over to two files deletes exactly the
oldest file. -/
theorem eventsAndStates_rollover_bound_witness :
    (countMatch (gwRun [] [GwOp.events ["c1".data, "c2".data] 0]) eventsPre ≤ 20
      ∧ countMatch (gwRun [] [GwOp.events ["c1".data, "c2".data] 0]) statesPre ≤ 10)
    ∧ matchFiles
        (rolloverFiles
          [⟨"events-a".data, 1⟩, ⟨"events-b".data, 2⟩, ⟨"events-c".data, 3⟩]
          eventsPre 2)
        eventsPre true
      = (matchFiles
          [⟨"events-a".data, 1⟩, ⟨"events-b".data, 2⟩, ⟨"events-c".data, 3⟩]
          eventsPre true).drop
        ((matchFiles
          [⟨"events-a".data, 1⟩, ⟨"events-b".data, 2⟩, ⟨"events-c".data, 3⟩]
          eventsPre true).length - 2)
    ∧ matchFiles
        (rolloverFiles
          [⟨"events-a".data, 1⟩, ⟨"events-b".data, 2⟩, ⟨"events-c".data, 3⟩]
          eventsPre 2)
        eventsPre true
      = ["events-b".data, "events-c".data] :=
  ⟨eventsAndStates_rollover_bound.1 [GwOp.events ["c1".data, "c2".data] 0],
   eventsAndStates_rollover_bound.2
     [⟨"events-a".data, 1⟩, ⟨"events-b".data, 2⟩, ⟨"events-c".data, 3⟩]
     eventsPre 2 (by decide) (by decide),
   by decide⟩

/-! ## Relational catalog (storage/db.go) and the device check-in -/

/-- One row of the `devices` table (storage/db.go `createTables`).  The
`group_name` column is virtual, generated from the `group` label; it is
modelled as a plain field. -/
structure DeviceRow where
  uuid : String
  pubkey : String
  deleted : Bool
  isProd : Bool
  createdAt : Int
  lastSeen : Int
  tag : String
  updateName : String
  targetName : String
  ostreeHash : String
  apps : String
  groupName : String
deriving Repr, DecidableEq

/-- The in-memory `gateway.Device` fields read and written by
`Device.CheckIn` (storage/gateway/storage.go). -/
structure GwDevice where
  uuid : String
  apps : String
  lastSeen : Int
  ostreeHash : String
  tag : String
  targetName : String
deriving Repr, DecidableEq

/-- Statement `stmtDeviceCheckIn` of storage/gateway/storage.go: `UPDATE devices SET
target_name=?, tag=?, ostree_hash=?, apps=?, last_seen=? WHERE uuid = ?`. -/
def stmtDeviceCheckIn (devices : List DeviceRow)
    (uuid targetName tag ostreeHash apps : String) (lastSeen : Int) : List DeviceRow :=
  devices.map fun r =>
    if r.uuid = uuid then
      { r with targetName := targetName, tag := tag, ostreeHash := ostreeHash,
               apps := apps, lastSeen := lastSeen }
    else r

/-- Embedding of `Device.CheckIn` (storage/gateway/storage.go): skip the catalog update
when all four inventory fields are unchanged and the last check-in is under
a minute old; otherwise refresh the in-memory object and run the bulk
UPDATE.  Returns the device, the table, and whether the UPDATE ran. -/
def checkIn (d : GwDevice) (devices : List DeviceRow)
    (targetName tag ostreeHash apps : String) (now : Int) :
    GwDevice × List DeviceRow × Bool :=
  if apps = d.apps ∧ ostreeHash = d.ostreeHash ∧ tag = d.tag ∧ targetName = d.targetName
      ∧ now - d.lastSeen < 60 then
    (d, devices, false)
  else
    ({ d with apps := apps, lastSeen := now, ostreeHash := ostreeHash,
              tag := tag, targetName := targetName },
     stmtDeviceCheckIn devices d.uuid targetName tag ostreeHash apps now,
     true)

/-- C5: `CheckIn` skips the catalog UPDATE iff all four of apps, ostree
hash, tag and target name equal the stored values and `now - last_seen` is
under 60 seconds; a skip leaves everything untouched, and otherwise the
in-memory device carries the new values and the row for this uuid (and
only it) gets the bulk UPDATE of target_name, tag, ostree_hash, apps and
last_seen. -/
theorem checkIn_dedup (d : GwDevice) (devices : List DeviceRow)
    (targetName tag ostreeHash apps : String) (now : Int) :
    ((checkIn d devices targetName tag ostreeHash apps now).2.2 = false
      ↔ apps = d.apps ∧ ostreeHash = d.ostreeHash ∧ tag = d.tag
          ∧ targetName = d.targetName ∧ now - d.lastSeen < 60)
    ∧ ((checkIn d devices targetName tag ostreeHash apps now).2.2 = false →
        (checkIn d devices targetName tag ostreeHash apps now).1 = d
        ∧ (checkIn d devices targetName tag ostreeHash apps now).2.1 = devices)
    ∧ ((checkIn d devices targetName tag ostreeHash apps now).2.2 = true →
        (checkIn d devices targetName tag ostreeHash apps now).1
          = { uuid := d.uuid, apps := apps, lastSeen := now,
              ostreeHash := ostreeHash, tag := tag, targetName := targetName }
        ∧ ∀ r ∈ devices,
            (if r.uuid = d.uuid then
              { r with targetName := targetName, tag := tag, ostreeHash := ostreeHash,
                       apps := apps, lastSeen := now }
            else r) ∈ (checkIn d devices targetName tag ostreeHash apps now).2.1) := by
  unfold checkIn
  split
  · next h =>
    refine ⟨⟨fun _ => h, fun _ => rfl⟩, fun _ => ⟨rfl, rfl⟩, fun hfalse => absurd hfalse (by simp)⟩
  · next h =>
    refine ⟨⟨fun habs => absurd habs (by simp), fun hc => absurd hc h⟩,
      fun habs => absurd habs (by simp), fun _ => ⟨rfl, ?_⟩⟩
    intro r hr
    exact List.mem_map_of_mem _ hr

/-- Witness for C5: a device with fresh inventory values runs the UPDATE
and the row is rewritten; the same inventory re-sent within a minute is
skipped. -/
theorem checkIn_dedup_witness :
    ((checkIn ⟨"u1", "a", 100, "h", "t", "tg"⟩ [] "tg" "t" "h" "a" 130).2.2 = false
      → (checkIn ⟨"u1", "a", 100, "h", "t", "tg"⟩ [] "tg" "t" "h" "a" 130).1
          = ⟨"u1", "a", 100, "h", "t", "tg"⟩)
    ∧ (checkIn ⟨"u1", "a", 100, "h", "t", "tg"⟩ [] "tg2" "t" "h" "a" 130).2.2 = true :=
  ⟨fun h =>
    ((checkIn_dedup ⟨"u1", "a", 100, "h", "t", "tg"⟩ [] "tg" "t" "h" "a" 130).2.1 h).1,
   by decide⟩

/-! ## Rollout engine (storage/api/api_storage.go, server/ui/api) -/

/-- The `api.Rollout` JSON document: `uuids`, `groups`, `effective-uuids`
and `committed`. -/
structure Rollout where
  uuids : List String
  groups : List String
  effect : List String
  commit : Bool
deriving Repr, DecidableEq

/-- Key of a rollout file on disk:
`updates/<branch>/<tag>/<update>/rollouts/<rollout>`. -/
abbrev RKey := Bool × String × String × String

/-- Makes a rollout file key from branch, tag, update and rollout names. -/
def rkey (isProd : Bool) (tag upd roll : String) : RKey := (isProd, tag, upd, roll)

/-- Content of a rollout store after a `writeFile`: the keyed file is
created or replaced. -/
def storeWrite (files : List (RKey × Rollout)) (k : RKey) (r : Rollout) :
    List (RKey × Rollout) :=
  if files.any (fun p => p.1 = k) then
    files.map (fun p => if p.1 = k then (k, r) else p)
  else files ++ [(k, r)]

/-- Reading a rollout file: the stored JSON document, if the file exists. -/
def storeRead (files : List (RKey × Rollout)) (k : RKey) : Option Rollout :=
  match files with
  | [] => none
  | (k', r) :: rest => if k' = k then some r else storeRead rest k

/-- The server state the rollout engine touches: the devices table, the
set of existing `<branch>/<tag>/<update>` update directories, the rollout
files, and the per-branch journal lines. -/
structure SrvState where
  devices : List DeviceRow
  updateDirs : List (Bool × String × String)
  rolloutFiles : List (RKey × Rollout)
  journal : List (Bool × String)
deriving Repr, DecidableEq

/-- Row filter of `stmtDeviceSetUpdate` (storage/api/api_storage.go):
`WHERE tag=? AND is_prod=? AND (uuid IN (...) OR group_name IN (...))`.
There is no `deleted` condition in the statement. -/
def setUpdateWhere (tag : String) (isProd : Bool) (uuids groups : List String)
    (r : DeviceRow) : Bool :=
  r.tag = tag ∧ r.isProd = isProd ∧ (r.uuid ∈ uuids ∨ r.groupName ∈ groups)

/-- Statement `stmtDeviceSetUpdate.run`: `UPDATE devices SET update_name=? WHERE ...
RETURNING uuid`; yields the updated table and the returned uuids. -/
def stmtDeviceSetUpdateRun (devices : List DeviceRow) (updateName tag : String)
    (isProd : Bool) (uuids groups : List String) : List DeviceRow × List String :=
  (devices.map fun r =>
      if setUpdateWhere tag isProd uuids groups r then { r with updateName := updateName } else r,
   (devices.filter (setUpdateWhere tag isProd uuids groups)).map (·.uuid))

/-- Embedding of `Storage.SetUpdateName` (storage/api/api_storage.go). -/
def setUpdateName (st : SrvState) (tag updateName : String) (isProd : Bool)
    (uuids groups : List String) : SrvState × List String :=
  let res := stmtDeviceSetUpdateRun st.devices updateName tag isProd uuids groups
  ({ st with devices := res.1 }, res.2)

/-- Embedding of `Storage.SaveRollout`: marshal the document and `WriteFile` it under
the branch's rollouts handle. -/
def saveRollout (st : SrvState) (isProd : Bool) (tag upd roll : String) (r : Rollout) :
    SrvState :=
  { st with rolloutFiles := storeWrite st.rolloutFiles (rkey isProd tag upd roll) r }

/-- Embedding of `Storage.GetRollout`: read and unmarshal the rollout file. -/
def getRollout (st : SrvState) (isProd : Bool) (tag upd roll : String) : Option Rollout :=
  storeRead st.rolloutFiles (rkey isProd tag upd roll)

/-- Embedding of `Storage.CreateRollout`: append the `"<tag>|<update>|<rollout>"` line
to the branch journal (its partial file), then write the rollout file. -/
def createRollout (st : SrvState) (isProd : Bool) (tag upd roll : String) (r : Rollout) :
    SrvState :=
  let line := tag ++ "|" ++ upd ++ "|" ++ roll
  saveRollout { st with journal := st.journal ++ [(isProd, line)] } isProd tag upd roll r

/-- Embedding of `Storage.CommitRollout`: run the bulk catalog update, collect the
returned uuids into `effective-uuids`, set `committed` and rewrite the
rollout file. -/
def commitRollout (st : SrvState) (isProd : Bool) (tag upd roll : String) (r : Rollout) :
    SrvState :=
  let res := setUpdateName st tag upd isProd r.uuids r.groups
  saveRollout res.1 isProd tag upd roll { r with effect := res.2, commit := true }

/-- Embedding of `Storage.ListUpdates` restricted to one tag: the update directories of
that tag on the requested branch. -/
def listUpdates (st : SrvState) (isProd : Bool) (tag : String) : List String :=
  st.updateDirs.filterMap fun d =>
    if d.1 = isProd ∧ d.2.1 = tag then some d.2.2 else none

/-- Handler `rolloutPut` of server/ui/api (src/unnamed/part_019): validate the
body, reject a missing `<tag>/<update>` directory with 404 and an existing
rollout file with 409, then write the rollout file, run the bulk update
and rewrite the file with `effective-uuids`.  `none` stands for a body
that fails to bind. -/
def rolloutPut (st : SrvState) (isProd : Bool) (tag upd roll : String)
    (body : Option Rollout) : Nat × SrvState :=
  match body with
  | none => (400, st)
  | some rollout =>
    if rollout.uuids.length = 0 ∧ rollout.groups.length = 0 then (400, st)
    else if rollout.effect.length > 0 then (400, st)
    else if ¬ upd ∈ listUpdates st isProd tag then (404, st)
    else if (getRollout st isProd tag upd roll).isSome then (409, st)
    else
      let st1 := saveRollout st isProd tag upd roll rollout
      let res := setUpdateName st1 tag upd isProd rollout.uuids rollout.groups
      let st2 := saveRollout res.1 isProd tag upd roll { rollout with effect := res.2 }
      (202, st2)

theorem storeRead_append_single (files : List (RKey × Rollout)) (k : RKey) (r : Rollout)
    (h : ∀ p ∈ files, p.1 ≠ k) : storeRead (files ++ [(k, r)]) k = some r := by
  induction files with
  | nil => simp [storeRead]
  | cons p rest ih =>
    have hp : p.1 ≠ k := h p (List.mem_cons_self p rest)
    simp only [List.cons_append, storeRead]
    rw [if_neg hp]
    exact ih (fun q hq => h q (List.mem_cons_of_mem _ hq))

theorem storeRead_map_update (files : List (RKey × Rollout)) (k : RKey) (r : Rollout)
    (h : files.any (fun p => p.1 = k) = true) :
    storeRead (files.map (fun p => if p.1 = k then (k, r) else p)) k = some r := by
  induction files with
  | nil => simp at h
  | cons p rest ih =>
    obtain ⟨pk, pr⟩ := p
    by_cases hp : pk = k
    · rw [List.map_cons]
      simp only at hp ⊢
      rw [if_pos hp]
      simp [storeRead]
    · rw [List.map_cons]
      simp only at hp ⊢
      rw [if_neg hp, storeRead, if_neg hp]
      apply ih
      rcases List.any_eq_true.mp h with ⟨q, hq, hqk⟩
      rcases List.mem_cons.mp hq with rfl | hq'
      · exact absurd (of_decide_eq_true hqk) hp
      · exact List.any_eq_true.mpr ⟨q, hq', hqk⟩

theorem storeRead_storeWrite_self (files : List (RKey × Rollout)) (k : RKey) (r : Rollout) :
    storeRead (storeWrite files k r) k = some r := by
  unfold storeWrite
  by_cases hany : files.any (fun p => p.1 = k) = true
  · rw [if_pos hany]
    exact storeRead_map_update files k r hany
  · rw [if_neg hany]
    apply storeRead_append_single
    intro p hp hpk
    exact hany (List.any_eq_true.mpr ⟨p, hp, by simpa using hpk⟩)

/-- Modelled from the spec: the committing `rolloutPut` protocol of §4.6
steps 5-7 is not among the retrieved handler sources — the handler kept in
src/unnamed/part_019 stops short of writing `committed`, while its own
test `TestApiRolloutPut` observes `committed=true` after a PUT.  Following
the spec's words, after the validations of steps 1-4 the handler appends
the `"<tag>|<update>|<rollout>"` journal line and writes the rollout file
(Phase A), then runs the bulk catalog update and rewrites the file with
`committed=true` and the returned `effective-uuids` (Phase B). -/
def rolloutPutCommitting (st : SrvState) (isProd : Bool) (tag upd roll : String)
    (body : Option Rollout) : Nat × SrvState :=
  match body with
  | none => (400, st)
  | some rollout =>
    if rollout.uuids.length = 0 ∧ rollout.groups.length = 0 then (400, st)
    else if rollout.effect.length > 0 then (400, st)
    else if ¬ upd ∈ listUpdates st isProd tag then (404, st)
    else if (getRollout st isProd tag upd roll).isSome then (409, st)
    else
      let st1 := createRollout st isProd tag upd roll rollout
      (202, commitRollout st1 isProd tag upd roll rollout)

/-- The set of device uuids the C1 claim asserts `effective-uuids` to
equal, in the claim's words: non-deleted devices whose (tag, is_prod)
matches the rollout's branch and tag and whose uuid is in `uuids` or whose
group is in `groups`. -/
def claimedEffectiveUuids (st : SrvState) (isProd : Bool) (tag : String) (r : Rollout) :
    List String :=
  (st.devices.filter fun d =>
    d.deleted = false ∧ d.tag = tag ∧ d.isProd = isProd
      ∧ (d.uuid ∈ r.uuids ∨ d.groupName ∈ r.groups)).map (·.uuid)

/-- A server state with one soft-deleted device matching a staged update's
tag and branch. -/
def c1DeletedState : SrvState :=
  { devices := [{ uuid := "d1", pubkey := "", deleted := true, isProd := false,
                  createdAt := 0, lastSeen := 0, tag := "t", updateName := "",
                  targetName := "", ostreeHash := "", apps := "", groupName := "" }],
    updateDirs := [(false, "t", "u")], rolloutFiles := [], journal := [] }

/-- C1 counterexample: committing a rollout that targets a soft-deleted
device whose tag and branch match stores that device's uuid in
`effective-uuids` (the `stmtDeviceSetUpdate` statement carries no
`deleted` condition), while the set of matching non-deleted devices is
empty — so `effective-uuids` is not the claimed set. -/
theorem commitRollout_deleted_device_counterexample :
    (getRollout (commitRollout c1DeletedState false "t" "u" "r" ⟨["d1"], [], [], false⟩)
        false "t" "u" "r").map Rollout.effect = some ["d1"]
    ∧ claimedEffectiveUuids c1DeletedState false "t" ⟨["d1"], [], [], false⟩ = []
    ∧ ¬ (getRollout (commitRollout c1DeletedState false "t" "u" "r" ⟨["d1"], [], [], false⟩)
          false "t" "u" "r").map Rollout.effect
        = some (claimedEffectiveUuids c1DeletedState false "t" ⟨["d1"], [], [], false⟩) := by
  refine ⟨by decide, by decide, by decide⟩

theorem commitRollout_reads_back (st : SrvState) (isProd : Bool) (tag upd roll : String)
    (r : Rollout) :
    ∃ r', getRollout (commitRollout st isProd tag upd roll r) isProd tag upd roll = some r'
      ∧ r'.commit = true
      ∧ ∀ u, u ∈ r'.effect ↔
          ∃ d ∈ st.devices, d.uuid = u ∧ d.tag = tag ∧ d.isProd = isProd
            ∧ (d.uuid ∈ r.uuids ∨ d.groupName ∈ r.groups) := by
  refine ⟨{ r with
      effect := (st.devices.filter (setUpdateWhere tag isProd r.uuids r.groups)).map (·.uuid),
      commit := true }, ?_, rfl, ?_⟩
  · exact storeRead_storeWrite_self _ _ _
  · intro u
    constructor
    · intro hu
      rcases List.mem_map.mp hu with ⟨d, hd, rfl⟩
      rcases List.mem_filter.mp hd with ⟨hmem, hw⟩
      have hw' : d.tag = tag ∧ d.isProd = isProd
          ∧ (d.uuid ∈ r.uuids ∨ d.groupName ∈ r.groups) := of_decide_eq_true hw
      exact ⟨d, hmem, rfl, hw'.1, hw'.2.1, hw'.2.2⟩
    · rintro ⟨d, hmem, rfl, h1, h2, h3⟩
      apply List.mem_map.mpr
      refine ⟨d, ?_, rfl⟩
      apply List.mem_filter.mpr
      refine ⟨hmem, ?_⟩
      show setUpdateWhere tag isProd r.uuids r.groups d = true
      exact decide_eq_true ⟨h1, h2, h3⟩

/-- C1 (amended): for every rollout committed — by the watchdog's
`CommitRollout` or by the spec-modelled committing PUT handler — reading
the rollout file afterwards yields `committed=true`, and `effective-uuids`
holds exactly the uuids of the devices (deleted or not) whose (tag,
is_prod) matches the rollout's branch and tag and whose uuid is in `uuids`
or whose group is in `groups`. -/
theorem rolloutCommit_effective_uuids :
    (∀ (st : SrvState) (isProd : Bool) (tag upd roll : String) (r : Rollout),
      ∃ r', getRollout (commitRollout st isProd tag upd roll r) isProd tag upd roll = some r'
        ∧ r'.commit = true
        ∧ ∀ u, u ∈ r'.effect ↔
            ∃ d ∈ st.devices, d.uuid = u ∧ d.tag = tag ∧ d.isProd = isProd
              ∧ (d.uuid ∈ r.uuids ∨ d.groupName ∈ r.groups))
    ∧ (∀ (st st' : SrvState) (isProd : Bool) (tag upd roll : String) (r : Rollout),
        rolloutPutCommitting st isProd tag upd roll (some r) = (202, st') →
        ∃ r', getRollout st' isProd tag upd roll = some r'
          ∧ r'.commit = true
          ∧ ∀ u, u ∈ r'.effect ↔
              ∃ d ∈ st.devices, d.uuid = u ∧ d.tag = tag ∧ d.isProd = isProd
                ∧ (d.uuid ∈ r.uuids ∨ d.groupName ∈ r.groups)) := by
  refine ⟨commitRollout_reads_back, ?_⟩
  intro st st' isProd tag upd roll r h
  simp only [rolloutPutCommitting] at h
  split at h
  · have h1 : (400 : Nat) = 202 := congrArg Prod.fst h
    exact absurd h1 (by decide)
  · split at h
    · have h1 : (400 : Nat) = 202 := congrArg Prod.fst h
      exact absurd h1 (by decide)
    · split at h
      · have h1 : (404 : Nat) = 202 := congrArg Prod.fst h
        exact absurd h1 (by decide)
      · split at h
        · have h1 : (409 : Nat) = 202 := congrArg Prod.fst h
          exact absurd h1 (by decide)
        · have h2 : commitRollout (createRollout st isProd tag upd roll r)
              isProd tag upd roll r = st' := congrArg Prod.snd h
          subst h2
          exact commitRollout_reads_back (createRollout st isProd tag upd roll r)
            isProd tag upd roll r

/-- Witness for C1's amended theorem: a non-deleted matching device and a
deleted matching device both land in `effective-uuids` after the
spec-modelled PUT commits, and the committed marker reads back true. -/
theorem rolloutCommit_effective_uuids_witness :
    ∃ r', getRollout
        (rolloutPutCommitting c1DeletedState false "t" "u" "r"
          (some ⟨["d1"], [], [], false⟩)).2 false "t" "u" "r" = some r'
      ∧ r'.commit = true
      ∧ ∀ u, u ∈ r'.effect ↔
          ∃ d ∈ c1DeletedState.devices, d.uuid = u ∧ d.tag = "t" ∧ d.isProd = false
            ∧ (d.uuid ∈ ["d1"] ∨ d.groupName ∈ ([] : List String)) :=
  rolloutCommit_effective_uuids.2 c1DeletedState
    (rolloutPutCommitting c1DeletedState false "t" "u" "r" (some ⟨["d1"], [], [], false⟩)).2
    false "t" "u" "r" ⟨["d1"], [], [], false⟩ (by decide)

/-- C4: `rolloutPut` (the handler of src/unnamed/part_019) answers 404
when the `<tag>/<update>` directory does not exist and 409 when the
rollout file already exists, and in both rejection cases the state is
returned unchanged: no journal line is appended, no rollout file is
created or overwritten, and no device row is updated. -/
theorem rolloutPut_reject_no_write (st : SrvState) (isProd : Bool) (tag upd roll : String)
    (r : Rollout) (hbody : ¬(r.uuids.length = 0 ∧ r.groups.length = 0))
    (heff : ¬ r.effect.length > 0) :
    (¬ upd ∈ listUpdates st isProd tag →
      rolloutPut st isProd tag upd roll (some r) = (404, st))
    ∧ (upd ∈ listUpdates st isProd tag → (getRollout st isProd tag upd roll).isSome →
      rolloutPut st isProd tag upd roll (some r) = (409, st)) := by
  constructor
  · intro hmiss
    simp only [rolloutPut]
    rw [if_neg hbody, if_neg heff, if_pos hmiss]
  · intro hupd hroll
    simp only [rolloutPut]
    rw [if_neg hbody, if_neg heff, if_neg (by simpa using hupd), if_pos hroll]

/-- Witness for C4 at a concrete state: one staged update `t/u` and one
existing rollout file; a PUT against the absent update `u2` answers
`(404, st)` and a PUT against the existing rollout answers `(409, st)`. -/
theorem rolloutPut_reject_no_write_witness :
    rolloutPut
        { devices := [], updateDirs := [(false, "t", "u")],
          rolloutFiles := [((false, "t", "u", "r0"), ⟨["x"], [], [], false⟩)], journal := [] }
        false "t" "u2" "r" (some ⟨["x"], [], [], false⟩)
      = (404,
         { devices := [], updateDirs := [(false, "t", "u")],
           rolloutFiles := [((false, "t", "u", "r0"), ⟨["x"], [], [], false⟩)], journal := [] })
    ∧ rolloutPut
        { devices := [], updateDirs := [(false, "t", "u")],
          rolloutFiles := [((false, "t", "u", "r0"), ⟨["x"], [], [], false⟩)], journal := [] }
        false "t" "u" "r0" (some ⟨["x"], [], [], false⟩)
      = (409,
         { devices := [], updateDirs := [(false, "t", "u")],
           rolloutFiles := [((false, "t", "u", "r0"), ⟨["x"], [], [], false⟩)], journal := [] }) :=
  ⟨(rolloutPut_reject_no_write _ false "t" "u2" "r" ⟨["x"], [], [], false⟩
      (by decide) (by decide)).1 (by decide),
   (rolloutPut_reject_no_write _ false "t" "u" "r0" ⟨["x"], [], [], false⟩
      (by decide) (by decide)).2 (by decide) (by decide)⟩

/-! ## Rollout watchdog (server/ui/daemons, `processJournal`) -/

/-- A parsed journal line: tag, update name, rollout name
(`ReadRolloutJournal` splits `"<tag>|<update>|<rollout>"`). -/
abbrev JLine := String × String × String

/-- One pass of `processJournal` (server/ui/server.go) over the parsed
journal lines.  `readFails l` injects a non-NotExist `GetRollout` error
for that line and `commitFails l` a `CommitRollout` error; both are logged,
flip the success flag and let the pass continue.  A missing rollout file
is skipped.  A present, uncommitted rollout is committed in place.  (In
the source an error from the journal-file iterator itself aborts the pass;
the embedding starts from the parsed lines, which `CreateRollout` always
writes in the three-part shape.) -/
def processJournalPass (st : SrvState) (isProd : Bool) (lines : List JLine)
    (readFails commitFails : JLine → Bool) : SrvState × Bool :=
  match lines with
  | [] => (st, true)
  | l :: rest =>
    if readFails l then
      let res := processJournalPass st isProd rest readFails commitFails
      (res.1, false)
    else
      match getRollout st isProd l.1 l.2.1 l.2.2 with
      | none => processJournalPass st isProd rest readFails commitFails
      | some r =>
        if r.commit then processJournalPass st isProd rest readFails commitFails
        else if commitFails l then
          let res := processJournalPass st isProd rest readFails commitFails
          (res.1, false)
        else
          processJournalPass (commitRollout st isProd l.1 l.2.1 l.2.2 r)
            isProd rest readFails commitFails

/-- The rollover decisions of `rolloutWatchdog` (server/ui/server.go): for
each pass outcome, the journal partial is renamed iff this is not the very
first pass since startup and the pass fully succeeded. -/
def watchdogRollovers : Bool → List Bool → List Bool
  | _, [] => []
  | firstRun, p :: rest => (if firstRun then false else p) :: watchdogRollovers false rest

/-- The reconciliation goal for one journal line: its rollout file is
either absent or carries `committed=true`. -/
def keyAbsentOrCommitted (st : SrvState) (k : RKey) : Prop :=
  match storeRead st.rolloutFiles k with
  | none => True
  | some r => r.commit = true

theorem storeRead_map_update_other (files : List (RKey × Rollout)) (k k' : RKey)
    (r : Rollout) (h : k' ≠ k) :
    storeRead (files.map (fun p => if p.1 = k then (k, r) else p)) k'
      = storeRead files k' := by
  have hk : ¬ k = k' := fun hc => h hc.symm
  induction files with
  | nil => rfl
  | cons p rest ih =>
    obtain ⟨pk, pr⟩ := p
    by_cases hp : pk = k
    · have hpk : ¬ pk = k' := by rw [hp]; exact hk
      rw [List.map_cons]
      simp only at hp ⊢
      rw [if_pos hp]
      simp only [storeRead]
      rw [if_neg hk, if_neg hpk]
      exact ih
    · rw [List.map_cons]
      simp only at hp ⊢
      rw [if_neg hp]
      simp only [storeRead]
      by_cases hpk : pk = k'
      · rw [if_pos hpk, if_pos hpk]
      · rw [if_neg hpk, if_neg hpk]
        exact ih

theorem storeRead_append_single_other (files : List (RKey × Rollout)) (k k' : RKey)
    (r : Rollout) (h : k' ≠ k) :
    storeRead (files ++ [(k, r)]) k' = storeRead files k' := by
  induction files with
  | nil =>
    simp only [List.nil_append, storeRead]
    rw [if_neg (fun hc => h hc.symm)]
  | cons p rest ih =>
    obtain ⟨pk, pr⟩ := p
    rw [List.cons_append]
    simp only [storeRead]
    by_cases hpk : pk = k'
    · rw [if_pos hpk, if_pos hpk]
    · rw [if_neg hpk, if_neg hpk]
      exact ih

theorem storeRead_storeWrite_other (files : List (RKey × Rollout)) (k k' : RKey)
    (r : Rollout) (h : k' ≠ k) :
    storeRead (storeWrite files k r) k' = storeRead files k' := by
  unfold storeWrite
  split
  · exact storeRead_map_update_other files k k' r h
  · exact storeRead_append_single_other files k k' r h

theorem commitRollout_preserves (st : SrvState) (isProd : Bool) (tag upd roll : String)
    (r : Rollout) (k : RKey) (h : keyAbsentOrCommitted st k) :
    keyAbsentOrCommitted (commitRollout st isProd tag upd roll r) k := by
  by_cases hk : k = rkey isProd tag upd roll
  · subst hk
    unfold keyAbsentOrCommitted commitRollout saveRollout
    rw [storeRead_storeWrite_self]
  · unfold keyAbsentOrCommitted commitRollout saveRollout
    rw [storeRead_storeWrite_other _ _ _ _ hk]
    exact h

theorem processJournalPass_preserves (st : SrvState) (isProd : Bool)
    (lines : List JLine) (rf cf : JLine → Bool) (k : RKey)
    (h : keyAbsentOrCommitted st k) :
    keyAbsentOrCommitted (processJournalPass st isProd lines rf cf).1 k := by
  induction lines generalizing st with
  | nil => exact h
  | cons l rest ih =>
    rw [processJournalPass]
    split
    · exact ih st h
    · split
      · exact ih st h
      · split
        · exact ih st h
        · split
          · exact ih st h
          · exact ih _ (commitRollout_preserves st isProd l.1 l.2.1 l.2.2 _ k h)

theorem processJournalPass_line (st : SrvState) (isProd : Bool) (lines : List JLine)
    (rf cf : JLine → Bool) (l : JLine)
    (hl : l ∈ lines) (hrf : rf l = false) (hcf : cf l = false) :
    keyAbsentOrCommitted (processJournalPass st isProd lines rf cf).1
      (rkey isProd l.1 l.2.1 l.2.2) := by
  induction lines generalizing st with
  | nil => exact absurd hl (List.not_mem_nil l)
  | cons l0 rest ih =>
    rw [processJournalPass]
    rcases List.mem_cons.mp hl with rfl | hl'
    · split
      · next hrft => rw [hrf] at hrft; exact absurd hrft (by decide)
      · split
        · next hget =>
          apply processJournalPass_preserves
          unfold keyAbsentOrCommitted
          unfold getRollout at hget
          rw [hget]
          trivial
        · next r hget =>
          split
          · next hcom =>
            apply processJournalPass_preserves
            unfold keyAbsentOrCommitted
            unfold getRollout at hget
            rw [hget]
            exact hcom
          · next hcom =>
            split
            · next hcft => rw [hcf] at hcft; exact absurd hcft (by decide)
            · apply processJournalPass_preserves
              unfold keyAbsentOrCommitted commitRollout saveRollout
              rw [storeRead_storeWrite_self]
    · split
      · exact ih _ hl'
      · split
        · exact ih _ hl'
        · split
          · exact ih _ hl'
          · split
            · exact ih _ hl'
            · exact ih _ hl'

theorem watchdogRollovers_false (passes : List Bool) :
    watchdogRollovers false passes = passes := by
  induction passes with
  | nil => rfl
  | cons p rest ih => rw [watchdogRollovers, if_neg (by simp), ih]

/-- C3: a watchdog pass reconciles every journal line — whatever read or
commit failures other lines suffer, each line whose own rollout read and
commit do not fail ends the pass with its rollout file absent (stale entry
skipped) or carrying `committed=true` (Phase B run and persisted); and the
journal partial is renamed only after a fully successful pass, never on
the very first pass since startup: the rollover decisions for passes
`p :: rest` are `false :: rest`. -/
theorem processJournal_watchdog :
    (∀ (st : SrvState) (isProd : Bool) (lines : List JLine)
        (rf cf : JLine → Bool) (l : JLine),
      l ∈ lines → rf l = false → cf l = false →
      keyAbsentOrCommitted (processJournalPass st isProd lines rf cf).1
        (rkey isProd l.1 l.2.1 l.2.2))
    ∧ (∀ (p : Bool) (rest : List Bool),
        watchdogRollovers true (p :: rest) = false :: rest) :=
  ⟨processJournalPass_line,
   fun p rest => by rw [watchdogRollovers, if_pos rfl, watchdogRollovers_false]⟩

/-- Witness for C3: a journal holding one stale line and one line whose
uncommitted rollout file exists; after the pass the first is still absent,
the second is committed, and the watchdog's rollover schedule for outcomes
`[true, true]` is `[false, true]`. -/
theorem processJournal_watchdog_witness :
    keyAbsentOrCommitted
      (processJournalPass
        { devices := [], updateDirs := [(false, "t", "u")],
          rolloutFiles := [((false, "t", "u", "r1"), ⟨["d"], [], [], false⟩)],
          journal := [(false, "t|u|r0"), (false, "t|u|r1")] }
        false [("t", "u", "r0"), ("t", "u", "r1")]
        (fun _ => false) (fun _ => false)).1
      (rkey false "t" "u" "r1")
    ∧ watchdogRollovers true [true, true] = [false, true] :=
  ⟨processJournal_watchdog.1
      { devices := [], updateDirs := [(false, "t", "u")],
        rolloutFiles := [((false, "t", "u", "r1"), ⟨["d"], [], [], false⟩)],
        journal := [(false, "t|u|r0"), (false, "t|u|r1")] }
      false [("t", "u", "r0"), ("t", "u", "r1")]
      (fun _ => false) (fun _ => false) ("t", "u", "r1")
      (by decide) rfl rfl,
   processJournal_watchdog.2 true [true]⟩

/-! ## Tokens (storage/users/sessions.go) -/

/-- Type `auth.Scopes`: a bit-set of capability bits; intersection is `&`. -/
abbrev Scopes := Nat

/-- One row of the `tokens` table (storage/db.go). -/
structure TokenRow where
  publicId : Int
  userId : Int
  createdAt : Int
  expiresAt : Int
  scopes : Scopes
  value : String
deriving Repr, DecidableEq

/-- The columns of the `users` table (storage/db.go) that `GetByToken`
touches, together with the `deleted` flag its owner lookup filters on. -/
structure UserRow where
  id : Int
  username : String
  deleted : Bool
  allowedScopes : Scopes
deriving Repr, DecidableEq

/-- The token-relevant slice of the catalog. -/
structure UsersDb where
  tokens : List TokenRow
  users : List UserRow
deriving Repr, DecidableEq

/-- The salt window `token[3:17]` of `genTokenKey`.  (Go slices bytes; the
tokens `rand.Text` produces are ASCII, where bytes and characters
coincide.) -/
def tokenSalt (token : String) : List Char := (token.data.drop 3).take 14

/-- Embedding of `Storage.genTokenKey` (storage/users/sessions.go): refuse tokens
shorter than 17, then derive the 32-byte key with
`hkdf(sha256, hmacSecret, token[3:17], info=nil)`; the HKDF stream (keyed
by the storage's hmac secret) is the abstract parameter `hkdf`. -/
def genTokenKey {κ : Type} (hkdf : List Char → κ) (token : String) : Except String κ :=
  if token.length < 17 then Except.error "token too short to derive key"
  else Except.ok (hkdf (tokenSalt token))

/-- Statement `stmtTokenLookup.run`: `SELECT ... FROM tokens WHERE value = ?`,
yielding the first row if any. -/
def stmtTokenLookup (tokens : List TokenRow) (value : String) : Option TokenRow :=
  tokens.find? (fun t => t.value = value)

/-- Statement `stmtUserGetById` (src/unnamed/part_001): `SELECT id,
username, password, email, created_at, allowed_scopes FROM users WHERE
id = ? and deleted = false`, first row if any.  A query with no rows makes
`run` surface `sql.ErrNoRows` (alongside a zero `User` value); `none`
here stands for that row-miss. -/
def stmtUserGetById (users : List UserRow) (userId : Int) : Option UserRow :=
  users.find? (fun u => u.id = userId ∧ u.deleted = false)

/-- Embedding of `Storage.GetByToken` (storage/users/sessions.go): derive the
per-token key, hash the token with HMAC-SHA256 under it (the abstract
parameter `hmac`, producing the stored hex digest), look the digest up,
return nil for an expired row, and otherwise load the owner with the
token's scopes intersected with the user's current allowed scopes.  When
the owner lookup finds no non-deleted row, `stmtUserGetById.run`'s
`sql.ErrNoRows` propagates out of `GetByToken` (the Go method also hands
back the zero `User` it scanned into; callers see the error). -/
def getByToken {κ : Type} (hkdf : List Char → κ) (hmac : κ → String → String)
    (db : UsersDb) (now : Int) (token : String) : Except String (Option UserRow) :=
  match genTokenKey hkdf token with
  | Except.error e => Except.error e
  | Except.ok key =>
    let hashed := hmac key token
    match stmtTokenLookup db.tokens hashed with
    | none => Except.ok none
    | some t =>
      if t.expiresAt < now then Except.ok none
      else
        match stmtUserGetById db.users t.userId with
        | none => Except.error "sql: no rows in result set"
        | some u => Except.ok (some { u with allowedScopes := t.scopes &&& u.allowedScopes })

/-- Embedding of `User.GenerateToken` (storage/users/sessions.go): refuse scopes
beyond the user's allowed set, derive the per-token key for the fresh raw
value, and store a row holding the hex HMAC digest, the expiry and the
requested scopes (the autoincrement id is modelled by the row count). -/
def generateToken {κ : Type} (hkdf : List Char → κ) (hmac : κ → String → String)
    (db : UsersDb) (u : UserRow) (expires : Int) (scopes : Scopes) (value : String)
    (createdAt : Int) : Except String UsersDb :=
  if scopes &&& u.allowedScopes ≠ scopes then
    Except.error "requested scopes exceed allowed scopes"
  else
    match genTokenKey hkdf value with
    | Except.error e => Except.error e
    | Except.ok key =>
      Except.ok { db with tokens := db.tokens ++
        [{ publicId := Int.ofNat db.tokens.length, userId := u.id, createdAt := createdAt,
           expiresAt := expires, scopes := scopes, value := hmac key value }] }

/-- C2: for a token T issued for user U with scopes S and expiry E,
`GetByToken` hashes T under the key derived from the salt `token[3:17]`
and, as long as the stored digest is fresh in the table: with `now < E` it
returns the owner downscoped to `S ∩ allowed_scopes` against the user
table *current at lookup time* (so shrinking the user's allowed scopes
immediately downscopes the live token) — the owner being the non-deleted
row `stmtUserGetById` selects for U's id; with E passed it returns nil
with no error; and when no non-deleted row remains for U's id, the
lookup's `sql.ErrNoRows` propagates. -/
theorem getByToken_issued {κ : Type} (hkdf : List Char → κ) (hmac : κ → String → String)
    (db db' : UsersDb) (u : UserRow) (E createdAt : Int) (S : Scopes) (T : String)
    (hiss : generateToken hkdf hmac db u E S T createdAt = Except.ok db')
    (hfresh : ∀ t ∈ db.tokens, t.value ≠ hmac (hkdf (tokenSalt T)) T)
    (users' : List UserRow) (u' : UserRow)
    (hu : users'.find? (fun x => x.id = u.id ∧ x.deleted = false) = some u')
    (now : Int) :
    (now < E →
      getByToken hkdf hmac { tokens := db'.tokens, users := users' } now T
        = Except.ok (some { u' with allowedScopes := S &&& u'.allowedScopes }))
    ∧ (E < now →
      getByToken hkdf hmac { tokens := db'.tokens, users := users' } now T
        = Except.ok none)
    ∧ (∀ users'' : List UserRow,
        users''.find? (fun x => x.id = u.id ∧ x.deleted = false) = none → now < E →
        getByToken hkdf hmac { tokens := db'.tokens, users := users'' } now T
          = Except.error "sql: no rows in result set") := by
  simp only [generateToken] at hiss
  split at hiss
  · exact absurd hiss (by simp)
  · split at hiss
    · next e herr => exact absurd hiss (by simp)
    · next key heq =>
      have hlen : ¬ T.length < 17 := by
        intro hc
        rw [genTokenKey, if_pos hc] at heq
        exact absurd heq (by simp)
      rw [genTokenKey, if_neg hlen] at heq
      injection heq with hkeyeq
      subst hkeyeq
      injection hiss with hdb
      subst hdb
      have hkey : genTokenKey hkdf T = Except.ok (hkdf (tokenSalt T)) := by
        rw [genTokenKey, if_neg hlen]
      have hlookup :
          stmtTokenLookup (db.tokens ++
              [{ publicId := Int.ofNat db.tokens.length, userId := u.id,
                 createdAt := createdAt, expiresAt := E, scopes := S,
                 value := hmac (hkdf (tokenSalt T)) T }])
            (hmac (hkdf (tokenSalt T)) T)
          = some { publicId := Int.ofNat db.tokens.length, userId := u.id,
                   createdAt := createdAt, expiresAt := E, scopes := S,
                   value := hmac (hkdf (tokenSalt T)) T } := by
        rw [stmtTokenLookup, List.find?_append]
        have hnone : db.tokens.find? (fun t => t.value = hmac (hkdf (tokenSalt T)) T) = none := by
          apply List.find?_eq_none.mpr
          intro t ht
          simpa using hfresh t ht
        rw [hnone]
        simp [List.find?]
      refine ⟨?_, ?_, ?_⟩
      · intro hnow
        simp only [getByToken, hkey, stmtUserGetById, hlookup, hu]
        rw [if_neg (show ¬ E < now by omega)]
      · intro hexp
        simp only [getByToken, hkey, hlookup]
        rw [if_pos hexp]
      · intro users'' hnone hnow
        simp only [getByToken, hkey, stmtUserGetById, hlookup, hnone]
        rw [if_neg (show ¬ E < now by omega)]

/-- Witness for C2 at a concrete database: a 17-character token issued
with scopes 1 for a user whose allowed scopes later read 3 resolves, before
expiry, to the user downscoped to `1 &&& 3`. -/
theorem getByToken_issued_witness :
    getByToken (fun _ => (0 : Nat)) (fun _ s => "H" ++ s)
      { tokens := [{ publicId := 0, userId := 1, createdAt := 7, expiresAt := 100,
                     scopes := 1, value := "H" ++ "abcdefghijklmnopq" }],
        users := [{ id := 1, username := "u", deleted := false, allowedScopes := 3 }] }
      50 "abcdefghijklmnopq"
      = Except.ok (some { id := 1, username := "u", deleted := false,
                          allowedScopes := 1 &&& 3 }) :=
  (getByToken_issued (fun _ => (0 : Nat)) (fun _ s => "H" ++ s)
    { tokens := [],
      users := [{ id := 1, username := "u", deleted := false, allowedScopes := 3 }] }
    { tokens := [{ publicId := 0, userId := 1, createdAt := 7, expiresAt := 100,
                   scopes := 1, value := "H" ++ "abcdefghijklmnopq" }],
      users := [{ id := 1, username := "u", deleted := false, allowedScopes := 3 }] }
    { id := 1, username := "u", deleted := false, allowedScopes := 3 }
    100 7 1 "abcdefghijklmnopq"
    rfl
    (fun t ht => absurd ht (List.not_mem_nil t))
    [{ id := 1, username := "u", deleted := false, allowedScopes := 3 }]
    { id := 1, username := "u", deleted := false, allowedScopes := 3 }
    (by decide) 50).1 (by decide)

/-- C10: every token shorter than 17 characters makes `genTokenKey` (and
hence `GetByToken`) return an error rather than evaluating the
out-of-bounds salt window `token[3:17]`. -/
theorem genTokenKey_short {κ : Type} (hkdf : List Char → κ) (hmac : κ → String → String)
    (db : UsersDb) (now : Int) (token : String) (h : token.length < 17) :
    genTokenKey hkdf token = Except.error "token too short to derive key"
    ∧ getByToken hkdf hmac db now token
      = Except.error "token too short to derive key" := by
  have h1 : genTokenKey (κ := κ) hkdf token
      = Except.error "token too short to derive key" := by
    rw [genTokenKey, if_pos h]
  exact ⟨h1, by rw [getByToken, h1]⟩

/-- Witness for C10: the three-character token "abc" is rejected with an
error by both entry points. -/
theorem genTokenKey_short_witness :
    genTokenKey (fun _ => (0 : Nat)) "abc" = Except.error "token too short to derive key"
    ∧ getByToken (fun _ => (0 : Nat)) (fun _ s => s) { tokens := [], users := [] } 0 "abc"
      = Except.error "token too short to derive key" :=
  genTokenKey_short (fun _ => (0 : Nat)) (fun _ s => s)
    { tokens := [], users := [] } 0 "abc" (by decide)

/-! ## Device update events upload (src/unnamed/part_016 `eventsUpload`) -/

/-- Struct `storage.DeviceEventType`. -/
structure DeviceEventType where
  id : String
  version : Int
deriving Repr, DecidableEq

/-- Struct `storage.DeviceEvent`. -/
structure DeviceEvent where
  correlationId : String
  ecu : String
  success : Option Bool
  targetName : String
  version : String
  details : String
deriving Repr, DecidableEq

/-- Struct `storage.DeviceUpdateEvent`. -/
structure DeviceUpdateEvent where
  id : String
  deviceTime : String
  event : DeviceEvent
  eventType : DeviceEventType
deriving Repr, DecidableEq

/-- The validation loop of `eventsUpload`: drop events with an empty id or
an empty correlation id (with a warning), rewrite a `deviceTime` that does
not parse as RFC3339 to the server's current UTC time, and keep the rest.
The RFC3339 parser (`time.Parse`) is the abstract parameter
`validRFC3339`; `nowUTC` is the formatted current time. -/
def validateEvents (validRFC3339 : String → Bool) (nowUTC : String) :
    List DeviceUpdateEvent → List DeviceUpdateEvent
  | [] => []
  | e :: rest =>
    if e.id.length = 0 then validateEvents validRFC3339 nowUTC rest
    else if e.event.correlationId.length = 0 then validateEvents validRFC3339 nowUTC rest
    else if validRFC3339 e.deviceTime then e :: validateEvents validRFC3339 nowUTC rest
    else { e with deviceTime := nowUTC } :: validateEvents validRFC3339 nowUTC rest

/-- Handler `eventsUpload` after a successful JSON bind: validate, answer 200 even
with zero valid events left, and hand the surviving events to
`ProcessEvents` only when at least one remains (`none` = no write). -/
def eventsUpload (validRFC3339 : String → Bool) (nowUTC : String)
    (events : List DeviceUpdateEvent) : Nat × Option (List DeviceUpdateEvent) :=
  let validEvents := validateEvents validRFC3339 nowUTC events
  if validEvents.length = 0 then (200, none)
  else (200, some validEvents)

/-- C8: for every batch that parses, `eventsUpload` answers 200, writes
nothing exactly when no valid event remains, and otherwise writes the
batch with the empty-id and empty-correlation-id events dropped and every
invalid `deviceTime` rewritten to the server's current UTC time. -/
theorem eventsUpload_spec (validRFC3339 : String → Bool) (nowUTC : String)
    (events : List DeviceUpdateEvent) :
    (eventsUpload validRFC3339 nowUTC events).1 = 200
    ∧ ((eventsUpload validRFC3339 nowUTC events).2 = none
        ↔ validateEvents validRFC3339 nowUTC events = [])
    ∧ validateEvents validRFC3339 nowUTC events
        = events.filterMap (fun e =>
            if e.id.length = 0 ∨ e.event.correlationId.length = 0 then none
            else if validRFC3339 e.deviceTime then some e
            else some { e with deviceTime := nowUTC }) := by
  refine ⟨?_, ?_, ?_⟩
  · rw [eventsUpload]
    split <;> rfl
  · rw [eventsUpload]
    split
    · next hlen =>
      simp only [true_iff]
      exact List.length_eq_zero.mp hlen
    · next hlen =>
      constructor
      · intro hc
        exact absurd hc (by simp)
      · intro hc
        exact absurd (hc ▸ rfl : (validateEvents validRFC3339 nowUTC events).length = 0) hlen
  · induction events with
    | nil => rfl
    | cons e rest ih =>
      rw [validateEvents, List.filterMap_cons]
      by_cases hid : e.id.length = 0
      · simp only [if_pos hid, if_pos (Or.inl hid)]
        exact ih
      · by_cases hcid : e.event.correlationId.length = 0
        · simp only [if_neg hid, if_pos hcid, if_pos (Or.inr hcid)]
          exact ih
        · have hor : ¬ (e.id.length = 0 ∨ e.event.correlationId.length = 0) := by
            rintro (h | h)
            · exact hid h
            · exact hcid h
          by_cases hrfc : validRFC3339 e.deviceTime = true
          · simp only [if_neg hid, if_neg hcid, if_pos hrfc, if_neg hor]
            rw [ih]
          · simp only [if_neg hid, if_neg hcid, if_neg hrfc, if_neg hor]
            rw [ih]

/-! ## Audit log (src/unnamed/part_002 `AppendEvent`) -/

/-- The line `AppendEvent` builds:
`fmt.Sprintf("%s: %s\n", time.Now().Format(time.RFC3339), event)`. -/
def auditLine (nowRFC3339 event : String) : String :=
  nowRFC3339 ++ ": " ++ event ++ "\n"

/-- The audit file name `fmt.Sprintf("users-%d", userid)` under the audit
directory. -/
def auditFileName (userid : Int) : String := "users-" ++ toString userid

/-- Effect of `AuditLogsFsHandle.AppendEvent` on the audit file's content:
the formatted line is appended with the durable-append primitive. -/
def appendEvent (content : String) (nowRFC3339 event : String) : String :=
  content ++ auditLine nowRFC3339 event

/-- C9 counterexample: `AppendEvent` separates the RFC3339 timestamp from
the message with ": ", not with a single space — at a concrete time and
message the appended line is not the claimed `"<RFC3339> <message>\n"`. -/
theorem appendEvent_format_counterexample :
    appendEvent "" "2024-01-02T03:04:05Z" "login" = "2024-01-02T03:04:05Z: login\n"
    ∧ appendEvent "" "2024-01-02T03:04:05Z" "login" ≠ "2024-01-02T03:04:05Z login\n" :=
  ⟨by decide, by decide⟩

/-- C9 (amended): every audit event is persisted by appending the single
line `"<RFC3339>: <message>\n"` to the file `users-<userid>` of the audit
directory, and existing content is never mutated — the previous content
stays a prefix of the new content. -/
theorem appendEvent_append_only (content nowRFC3339 event : String) (userid : Int) :
    appendEvent content nowRFC3339 event
      = content ++ (nowRFC3339 ++ ": " ++ event ++ "\n")
    ∧ content.data <+: (appendEvent content nowRFC3339 event).data
    ∧ auditFileName userid = "users-" ++ toString userid := by
  refine ⟨rfl, ?_, rfl⟩
  rw [appendEvent, String.data_append]
  exact List.prefix_append _ _

end DgSat
